import Mathlib

/-!
Verification of the register-access core of the `tofino` repository
(`tftool`): bit-field extraction (`get_bits`), the mapped PCI window
(`Pci`), chip-id decoding (`ChipId`), fuse decoding (`Fuse`), register
identifier resolution (`cmd_read`), register-tree search, and the
descriptor-ring catalog (`dr.rs`).

Machine integers are modelled as `Nat` with explicit `% 2^w` where the
Rust code can wrap; fallible Rust `Result` values become `Except` or
`Option`; slice indexing that can panic becomes an `Option` result.
-/

/-! ## `src/tftool/common.rs` -/

/-- `get_bit` from `common.rs`: `((w >> bit) & 0x1) as u64`. -/
def get_bit (word : Nat) (bit : Nat) : Nat :=
  (word >>> bit) &&& 0x1

/-- The loop body of `get_bits` from `common.rs`.  The Rust loop runs the
bit index `idx` from `end` down to `start`; here the loop is indexed by
the remaining distance `d`, so the current bit index is `idx = start + d`
and the loop ends after processing `d = 0` (i.e. `idx = start`; the
source's extra `if idx == 0 break` only fires when `start = 0` and is
equivalent).  Each step fetches `regs[idx / 32]` (a Rust panic on an
out-of-range index becomes `none`), shifts the `u64` accumulator left by
one (wrapping, hence `% 2^64`) and ORs in the selected bit. -/
def get_bits_go (regs : List Nat) (start : Nat) : Nat → Nat → Option Nat
  | 0, rval =>
    match regs[start / 32]? with
    | none => none
    | some w => some (((rval <<< 1) % 2 ^ 64) ||| get_bit w (start % 32))
  | d + 1, rval =>
    match regs[(start + (d + 1)) / 32]? with
    | none => none
    | some w =>
      get_bits_go regs start d
        (((rval <<< 1) % 2 ^ 64) ||| get_bit w ((start + (d + 1)) % 32))

/-- `get_bits` from `common.rs`: extract bits `start ..= fin` of the word
slice `regs` into a `u64`.  When `start > fin` the Rust range
`(start..end + 1).rev()` is empty and the accumulator `0` is returned. -/
def get_bits (regs : List Nat) (start fin : Nat) : Option Nat :=
  if start ≤ fin then get_bits_go regs start (fin - start) 0 else some 0

/-- Value of a word list read as one little-endian bit stream: bit `0` of
`regs[0]` is global bit `0`, bit `0` of `regs[1]` is global bit `32`, … -/
def wordsVal : List Nat → Nat
  | [] => 0
  | w :: ws => w + 2 ^ 32 * wordsVal ws

theorem get_bit_eq (w k : Nat) : get_bit w k = w / 2 ^ k % 2 := by
  simp [get_bit, Nat.shiftRight_eq_div_pow, Nat.and_one_is_mod]

theorem lor_two_mul_add (a b : Nat) (hb : b < 2) :
    2 * a ||| b = 2 * a + b := by
  interval_cases b
  · simp
  · have h1 : 2 * a = Nat.bit false a := by simp [Nat.bit_val]
    have h2 : (1 : Nat) = Nat.bit true 0 := rfl
    rw [h1, h2, Nat.lor_bit]
    simp [Nat.bit_val]

/-- The global bit `idx` of the little-endian concatenation of a list of
32-bit words is bit `idx % 32` of word `idx / 32`. -/
theorem wordsVal_bit (regs : List Nat) (h32 : ∀ w ∈ regs, w < 2 ^ 32)
    (idx : Nat) (hidx : idx < 32 * regs.length) :
    wordsVal regs / 2 ^ idx % 2 = regs.getD (idx / 32) 0 / 2 ^ (idx % 32) % 2 := by
  induction regs generalizing idx with
  | nil => simp at hidx
  | cons w ws ih =>
    rcases Nat.lt_or_ge idx 32 with hlt | hge
    · have hdiv : idx / 32 = 0 := Nat.div_eq_of_lt hlt
      have hmod : idx % 32 = idx := Nat.mod_eq_of_lt hlt
      rw [hdiv, hmod]
      simp only [wordsVal, List.getD_cons_zero]
      have hsplit : (2 : Nat) ^ 32 * wordsVal ws
          = 2 ^ idx * (2 ^ (32 - idx) * wordsVal ws) := by
        rw [← Nat.mul_assoc, ← pow_add]
        congr 2
        omega
      rw [hsplit, Nat.add_mul_div_left _ _ (Nat.pos_pow_of_pos idx (by omega))]
      have h2 : (2 : Nat) ^ (32 - idx) * wordsVal ws
          = 2 * (2 ^ (31 - idx) * wordsVal ws) := by
        rw [← Nat.mul_assoc]
        congr 1
        rw [← pow_succ']
        congr 1
        omega
      rw [h2, Nat.add_mul_mod_self_left]
    · obtain ⟨j, rfl⟩ : ∃ j, idx = j + 32 := ⟨idx - 32, by omega⟩
      have hdiv : (j + 32) / 32 = j / 32 + 1 := Nat.add_div_right j (by omega)
      have hmod : (j + 32) % 32 = j % 32 := Nat.add_mod_right j 32
      rw [hdiv, hmod, List.getD_cons_succ]
      have hpow : (2 : Nat) ^ (j + 32) = 2 ^ 32 * 2 ^ j := by
        rw [← pow_add]
        congr 1
        omega
      have hw : w / 2 ^ 32 = 0 :=
        Nat.div_eq_of_lt (h32 w (List.mem_cons_self w ws))
      have hquot : wordsVal (w :: ws) / 2 ^ (j + 32) = wordsVal ws / 2 ^ j := by
        rw [hpow, ← Nat.div_div_eq_div_mul]
        simp only [wordsVal]
        rw [Nat.add_mul_div_left _ _ (Nat.two_pow_pos 32), hw, Nat.zero_add]
      rw [hquot]
      refine ih (fun x hx => h32 x (List.mem_cons_of_mem w hx)) j ?_
      simp only [List.length_cons] at hidx
      omega

/-- Accumulator invariant for the `get_bits` loop: running the loop over
bit indices `start + d` down to `start` appends the `d + 1` extracted
bits below the accumulator. -/
theorem get_bits_go_spec (regs : List Nat) (h32 : ∀ w ∈ regs, w < 2 ^ 32)
    (start : Nat) :
    ∀ d rval, start + d < 32 * regs.length → d + 1 ≤ 64 →
      rval < 2 ^ (64 - (d + 1)) →
      get_bits_go regs start d rval
        = some (rval * 2 ^ (d + 1) + wordsVal regs / 2 ^ start % 2 ^ (d + 1)) := by
  intro d
  induction d with
  | zero =>
    intro rval hlt _ hrval
    obtain ⟨w, hw⟩ : ∃ w, regs[start / 32]? = some w :=
      ⟨_, List.getElem?_eq_getElem (Nat.div_lt_of_lt_mul (by omega))⟩
    have hwD : regs.getD (start / 32) 0 = w := by
      rw [List.getD_eq_getElem?_getD, hw, Option.getD_some]
    rw [get_bits_go, hw]
    dsimp only
    have hshift : (rval <<< 1) % 2 ^ 64 = 2 * rval := by
      rw [Nat.shiftLeft_eq, pow_one, Nat.mod_eq_of_lt ?_]
      · omega
      · have h63 : rval < 2 ^ 63 := by simpa using hrval
        have : (2 : Nat) ^ 63 * 2 = 2 ^ 64 := by norm_num
        omega
    have hbit : get_bit w (start % 32) = wordsVal regs / 2 ^ start % 2 := by
      rw [get_bit_eq, ← hwD, ← wordsVal_bit regs h32 start (by omega)]
    rw [hshift, hbit, lor_two_mul_add _ _ (Nat.mod_lt _ (by omega))]
    have h1 : wordsVal regs / 2 ^ start % 2 ^ (0 + 1)
        = wordsVal regs / 2 ^ start % 2 := by norm_num
    rw [h1]
    congr 1
    omega
  | succ d ih =>
    intro rval hlt hle hrval
    obtain ⟨w, hw⟩ : ∃ w, regs[(start + (d + 1)) / 32]? = some w :=
      ⟨_, List.getElem?_eq_getElem (Nat.div_lt_of_lt_mul (by omega))⟩
    have hwD : regs.getD ((start + (d + 1)) / 32) 0 = w := by
      rw [List.getD_eq_getElem?_getD, hw, Option.getD_some]
    rw [get_bits_go, hw]
    dsimp only
    have hshift : (rval <<< 1) % 2 ^ 64 = 2 * rval := by
      rw [Nat.shiftLeft_eq, pow_one, Nat.mod_eq_of_lt ?_]
      · omega
      · have hub : (2 : Nat) ^ (64 - (d + 1 + 1)) * 2 ≤ 2 ^ 64 := by
          rw [← pow_succ]
          exact Nat.pow_le_pow_right (by omega) (by omega)
        omega
    have hbit : get_bit w ((start + (d + 1)) % 32)
        = wordsVal regs / 2 ^ (start + (d + 1)) % 2 := by
      rw [get_bit_eq, ← hwD, ← wordsVal_bit regs h32 _ (by omega)]
    have hsplit : wordsVal regs / 2 ^ (start + (d + 1))
        = wordsVal regs / 2 ^ start / 2 ^ (d + 1) := by
      rw [Nat.div_div_eq_div_mul, ← pow_add]
    rw [hshift, hbit, lor_two_mul_add _ _ (Nat.mod_lt _ (by omega)), hsplit]
    set Y := wordsVal regs / 2 ^ start with hY
    have hrec := ih (2 * rval + Y / 2 ^ (d + 1) % 2) (by omega) (by omega) (by
      have hm : Y / 2 ^ (d + 1) % 2 < 2 := Nat.mod_lt _ (by omega)
      have hstep : (2 : Nat) ^ (64 - (d + 1 + 1)) * 2 = 2 ^ (64 - (d + 1)) := by
        rw [← pow_succ]
        congr 1
        omega
      omega)
    rw [hrec]
    have hkey : Y % 2 ^ (d + 1 + 1) = Y % 2 ^ (d + 1) + 2 ^ (d + 1) * (Y / 2 ^ (d + 1) % 2) := by
      have hp : (2 : Nat) ^ (d + 1 + 1) = 2 ^ (d + 1) * 2 := by rw [pow_succ]
      rw [hp, Nat.mod_mul]
    have hp2 : (2 : Nat) ^ (d + 1 + 1) = 2 ^ (d + 1) * 2 := by rw [pow_succ]
    rw [hkey, hp2]
    congr 1
    ring

/-- `get_bits` extracts exactly the requested bit range of the
little-endian concatenation of the words. -/
theorem get_bits_spec (regs : List Nat) (h32 : ∀ w ∈ regs, w < 2 ^ 32)
    (start fin : Nat) (h1 : start ≤ fin) (h2 : fin < 32 * regs.length)
    (h3 : fin - start < 64) :
    get_bits regs start fin
      = some (wordsVal regs / 2 ^ start % 2 ^ (fin - start + 1)) := by
  unfold get_bits
  rw [if_pos h1]
  have h := get_bits_go_spec regs h32 start (fin - start) 0 (by omega) (by omega)
    (Nat.two_pow_pos _)
  simpa using h

/-- The `get_bits` loop never indexes out of range while the requested
range lies inside the slice. -/
theorem get_bits_go_isSome (regs : List Nat) (start : Nat) :
    ∀ d rval, start + d < 32 * regs.length →
      (get_bits_go regs start d rval).isSome := by
  intro d
  induction d with
  | zero =>
    intro rval hlt
    obtain ⟨w, hsome⟩ : ∃ w, regs[start / 32]? = some w :=
      ⟨_, List.getElem?_eq_getElem (Nat.div_lt_of_lt_mul (by omega))⟩
    rw [get_bits_go, hsome]
    rfl
  | succ d ih =>
    intro rval hlt
    obtain ⟨w, hsome⟩ : ∃ w, regs[(start + (d + 1)) / 32]? = some w :=
      ⟨_, List.getElem?_eq_getElem (Nat.div_lt_of_lt_mul (by omega))⟩
    rw [get_bits_go, hsome]
    exact ih _ (by omega)

/-- C2: for every word list and every bit range with
`start ≤ fin`, `fin < 32 * words.length` and `fin - start < 64`,
`get_bits words start fin` equals bits `start ..= fin` of the
little-endian concatenation of the words, i.e.
`(V / 2 ^ start) % 2 ^ (fin - start + 1)` where `V` is the concatenated
value; in particular the nibbles of `0xabcd` come out in order. -/
theorem c2_get_bits_extracts_range :
    (∀ (words : List Nat) (start fin : Nat), (∀ w ∈ words, w < 2 ^ 32) →
        start ≤ fin → fin < 32 * words.length → fin - start < 64 →
        get_bits words start fin
          = some (wordsVal words / 2 ^ start % 2 ^ (fin - start + 1)))
    ∧ get_bits [0xabcd] 0 3 = some 0xd
    ∧ get_bits [0xabcd] 4 7 = some 0xc
    ∧ get_bits [0xabcd] 8 11 = some 0xb
    ∧ get_bits [0xabcd] 12 15 = some 0xa := by
  refine ⟨fun words start fin h32 h1 h2 h3 => get_bits_spec words h32 start fin h1 h2 h3,
    ?_, ?_, ?_, ?_⟩ <;> decide

/-- Witness for C2: the general statement evaluated on the second
fixture nibble. -/
theorem c2_get_bits_extracts_range_witness :
    get_bits [0xabcd] 4 7 = some (wordsVal [0xabcd] / 2 ^ 4 % 2 ^ (7 - 4 + 1)) :=
  c2_get_bits_extracts_range.1 [0xabcd] 4 7 (by decide) (by decide) (by decide)
    (by decide)

/-- C9: `get_bits` is total under its documented precondition: whenever
`fin < 32 * words.length` every slice index it performs is in bounds and
a value is returned (`isSome`, i.e. no panic); and when `start > fin`
the loop body never executes and the result is `0`. -/
theorem c9_get_bits_total :
    ∀ (words : List Nat) (start fin : Nat),
      (fin < 32 * words.length → (get_bits words start fin).isSome)
      ∧ (fin < start → get_bits words start fin = some 0) := by
  intro words start fin
  constructor
  · intro h
    unfold get_bits
    split
    · exact get_bits_go_isSome words start (fin - start) 0 (by omega)
    · rfl
  · intro h
    unfold get_bits
    rw [if_neg (by omega)]

/-- Witness for C9: an in-range extraction over one word is defined, and
an inverted range yields `0`. -/
theorem c9_get_bits_total_witness :
    (get_bits [1] 0 31).isSome ∧ get_bits [1] 5 2 = some 0 :=
  ⟨(c9_get_bits_total [1] 0 31).1 (by decide), (c9_get_bits_total [1] 5 2).2 (by decide)⟩

/-! ## `src/lib/pci.rs` -/

/-- Errors of `Pci::get_word_ptr`: the alignment error
(`"unaligned 4-byte read at {offset}"`) and the bounds error
(`"offset {offset} is outside the mapped range"`). -/
inductive PciErr where
  | unaligned (offset : Nat) : PciErr
  | outsideMappedRange (offset : Nat) : PciErr
deriving DecidableEq

/-- `Pci::get_word_ptr` from `pci.rs`, for a window of `len` bytes:
rejects `offset & 0x3 != 0`, then rejects `offset + 4 >= self.len as u32`
(`u32` arithmetic, hence the `% 2 ^ 32`), else returns the word index
`offset >> 2` of the mapped word. -/
def get_word_ptr (len offset : Nat) : Except PciErr Nat :=
  if offset &&& 0x3 ≠ 0 then Except.error (PciErr.unaligned offset)
  else if (offset + 4) % 2 ^ 32 ≥ len % 2 ^ 32 then
    Except.error (PciErr.outsideMappedRange offset)
  else Except.ok (offset >>> 2)

/-- A mapped ASIC device (`struct Pci`): the mapped length and the
mapped words, by word index. -/
structure Pci where
  len : Nat
  mem : Nat → Nat

/-- `Pci::read4`. -/
def Pci.read4 (p : Pci) (offset : Nat) : Except PciErr Nat :=
  (get_word_ptr p.len offset).map p.mem

/-- `Pci::write4`. -/
def Pci.write4 (p : Pci) (offset val : Nat) : Except PciErr Pci :=
  (get_word_ptr p.len offset).map fun i =>
    { p with mem := fun j => if j = i then val else p.mem j }

/-- C1 (divergence): the bounds check is `offset + 4 >= len`, so the
last in-window word at `offset = length_bytes - 4` is rejected with the
bounds error even though it is 4-byte aligned and `offset + 4 ≤
length_bytes`.  Evaluated at `length_bytes = 8`, `offset = 4` (the last
in-window word): both `read4` and `write4` fail, while the aligned
in-range offset `0` succeeds and the unaligned offset `5` fails with the
alignment error as the claim states. -/
theorem c1_last_word_rejected :
    (Pci.mk 8 fun _ => 0).read4 4 = Except.error (PciErr.outsideMappedRange 4)
    ∧ (Pci.mk 8 fun _ => 0).write4 4 0 = Except.error (PciErr.outsideMappedRange 4)
    ∧ 4 % 4 = 0 ∧ 4 + 4 ≤ 8
    ∧ (Pci.mk 8 fun _ => 0).read4 0 = Except.ok 0
    ∧ (Pci.mk 8 fun _ => 0).read4 5 = Except.error (PciErr.unaligned 5) :=
  ⟨rfl, rfl, rfl, by omega, rfl, rfl⟩

/-! ## `crates/tofino/src/fuse.rs`: `ChipId` -/

/-- `bite` from `impl From<u64> for ChipId`: take the low `bits` bits
(`as u8`, hence `% 256`) and the remaining shifted value. -/
def bite (a : Nat) (bits : Nat) : Nat × Nat :=
  ((a &&& ((1 <<< bits) - 1)) % 256, a >>> bits)

/-- Parsed version of the `chip_id` fuse field (`struct ChipId`).
The four `char` fields hold the character's ASCII code. -/
structure ChipId where
  fab : Nat
  lot : Nat
  lotnum0 : Nat
  lotnum1 : Nat
  lotnum2 : Nat
  lotnum3 : Nat
  wafer : Nat
  xsign : Nat
  x : Nat
  ysign : Nat
  y : Nat
deriving DecidableEq

/-- `impl From<u64> for ChipId`: successive `bite`s of 7, 7, 7, 7, 7, 7,
5, 1, 7, 1, 7 bits from the least-significant end of `raw`. -/
def ChipId.ofRaw (raw : Nat) : ChipId :=
  let p1 := bite raw 7
  let p2 := bite p1.2 7
  let p3 := bite p2.2 7
  let p4 := bite p3.2 7
  let p5 := bite p4.2 7
  let p6 := bite p5.2 7
  let p7 := bite p6.2 5
  let p8 := bite p7.2 1
  let p9 := bite p8.2 7
  let p10 := bite p9.2 1
  let p11 := bite p10.2 7
  ⟨p1.1, p2.1, p3.1, p4.1, p5.1, p6.1, p7.1, p8.1, p9.1, p10.1, p11.1⟩

/-- C3: the chip-id decoder consumes `raw` from the least-significant
end — six 7-bit characters, a 5-bit wafer, 1-bit xsign, 7-bit x, 1-bit
ysign, 7-bit y, shifting right by each width after extracting — and the
published fixture `0x08025dbb797061d4` decodes to fab=`T` (84),
lot=`C` (67), lotnum="AK77" (65, 75, 55, 55), wafer=23, xsign=0, x=2,
ysign=0, y=8. -/
theorem c3_chip_id_decode :
    (∀ raw : Nat,
      (ChipId.ofRaw raw).fab = raw % 2 ^ 7
      ∧ (ChipId.ofRaw raw).lot = raw / 2 ^ 7 % 2 ^ 7
      ∧ (ChipId.ofRaw raw).lotnum0 = raw / 2 ^ 14 % 2 ^ 7
      ∧ (ChipId.ofRaw raw).lotnum1 = raw / 2 ^ 21 % 2 ^ 7
      ∧ (ChipId.ofRaw raw).lotnum2 = raw / 2 ^ 28 % 2 ^ 7
      ∧ (ChipId.ofRaw raw).lotnum3 = raw / 2 ^ 35 % 2 ^ 7
      ∧ (ChipId.ofRaw raw).wafer = raw / 2 ^ 42 % 2 ^ 5
      ∧ (ChipId.ofRaw raw).xsign = raw / 2 ^ 47 % 2
      ∧ (ChipId.ofRaw raw).x = raw / 2 ^ 48 % 2 ^ 7
      ∧ (ChipId.ofRaw raw).ysign = raw / 2 ^ 55 % 2
      ∧ (ChipId.ofRaw raw).y = raw / 2 ^ 56 % 2 ^ 7)
    ∧ ChipId.ofRaw 0x08025dbb797061d4 = ⟨84, 67, 65, 75, 55, 55, 23, 0, 2, 0, 8⟩ := by
  constructor
  · intro raw
    refine ⟨?_, ?_, ?_, ?_, ?_, ?_, ?_, ?_, ?_, ?_, ?_⟩ <;>
      · simp only [ChipId.ofRaw, bite, Nat.shiftLeft_eq, one_mul,
          Nat.and_pow_two_sub_one_eq_mod, Nat.shiftRight_eq_div_pow,
          Nat.div_div_eq_div_mul, ← pow_add]
        norm_num
        omega
  · rfl

/-! ## `crates/tofino/src/fuse.rs`: `Fuse` -/

/-- Error of `Fuse::try_from_slice`: `"fuse should be 16 words.  Found
{n}"`, carrying the offending length. -/
inductive FuseErr where
  | lengthMismatch (found : Nat) : FuseErr
deriving DecidableEq

/-- Data stored in the fuse registers (`struct Fuse`), one `u64` field
per named bit range. -/
structure Fuse where
  device_id : Nat
  version : Nat
  freq_dis : Nat
  freq_bps : Nat
  freq_pps : Nat
  pcie_dis : Nat
  cpu_speed_dis : Nat
  speed_dis : Nat
  port_dis : Nat
  pipe_dis : Nat
  pipe0_mau_dis : Nat
  pipe1_mau_dis : Nat
  pipe2_mau_dis : Nat
  pipe3_mau_dis : Nat
  tm_mem_dis : Nat
  bsync_dis : Nat
  pgen_dis : Nat
  resub_dis : Nat
  voltage_scaling : Nat
  rsvd_22 : Nat
  part_num : Nat
  rev_num : Nat
  pkg_id : Nat
  silent_spin : Nat
  chip_id : Nat
  pmro_and_skew : Nat
  wf_core_repair : Nat
  core_repair : Nat
  tile_repair : Nat
  freq_bps_2 : Nat
  freq_pps_2 : Nat
  die_rotation : Nat
  soft_pipe_dis : Nat
deriving DecidableEq

/-- `Fuse::try_from_slice`: reject any slice whose length differs from
`FUSE_SIZE = 16`, else extract each named field with `get_bits` at its
fixed bit range.  (With 16 words every range below is in bounds, so the
`getD 0` default is never taken; the theorem below proves the exact
values.) -/
def Fuse.try_from_slice (data : List Nat) : Except FuseErr Fuse :=
  if data.length ≠ 16 then Except.error (FuseErr.lengthMismatch data.length)
  else Except.ok {
    device_id := (get_bits data 0 15).getD 0,
    version := (get_bits data 16 17).getD 0,
    freq_dis := (get_bits data 18 18).getD 0,
    freq_bps := (get_bits data 19 20).getD 0,
    freq_pps := (get_bits data 21 22).getD 0,
    pcie_dis := (get_bits data 23 24).getD 0,
    cpu_speed_dis := (get_bits data 25 26).getD 0,
    speed_dis := (get_bits data 27 90).getD 0,
    port_dis := (get_bits data 91 130).getD 0,
    pipe_dis := (get_bits data 131 134).getD 0,
    pipe0_mau_dis := (get_bits data 135 155).getD 0,
    pipe1_mau_dis := (get_bits data 156 176).getD 0,
    pipe2_mau_dis := (get_bits data 177 197).getD 0,
    pipe3_mau_dis := (get_bits data 198 218).getD 0,
    tm_mem_dis := (get_bits data 219 250).getD 0,
    bsync_dis := (get_bits data 251 251).getD 0,
    pgen_dis := (get_bits data 252 252).getD 0,
    resub_dis := (get_bits data 253 253).getD 0,
    voltage_scaling := (get_bits data 254 265).getD 0,
    rsvd_22 := (get_bits data 266 287).getD 0,
    part_num := (get_bits data 288 301).getD 0,
    rev_num := (get_bits data 302 309).getD 0,
    pkg_id := (get_bits data 310 311).getD 0,
    silent_spin := (get_bits data 312 313).getD 0,
    chip_id := (get_bits data 314 376).getD 0,
    pmro_and_skew := (get_bits data 377 388).getD 0,
    wf_core_repair := (get_bits data 389 389).getD 0,
    core_repair := (get_bits data 390 390).getD 0,
    tile_repair := (get_bits data 391 391).getD 0,
    freq_bps_2 := (get_bits data 392 395).getD 0,
    freq_pps_2 := (get_bits data 396 399).getD 0,
    die_rotation := (get_bits data 400 400).getD 0,
    soft_pipe_dis := (get_bits data 401 404).getD 0
  }

/-- C7: fuse decoding from a word slice fails with a length error iff
the slice length differs from 16; on every 16-word slice it succeeds and
every named field equals the bit-field extraction of its fixed range
(`device_id` = bits 0..=15 through `soft_pipe_dis` = bits 401..=404) of
the concatenated 512-bit blob. -/
theorem c7_fuse_decode :
    ∀ data : List Nat, (∀ w ∈ data, w < 2 ^ 32) →
      (data.length ≠ 16 →
        Fuse.try_from_slice data = Except.error (FuseErr.lengthMismatch data.length))
      ∧ (data.length = 16 → Fuse.try_from_slice data = Except.ok {
        device_id := wordsVal data % 2 ^ 16,
        version := wordsVal data / 2 ^ 16 % 2 ^ 2,
        freq_dis := wordsVal data / 2 ^ 18 % 2,
        freq_bps := wordsVal data / 2 ^ 19 % 2 ^ 2,
        freq_pps := wordsVal data / 2 ^ 21 % 2 ^ 2,
        pcie_dis := wordsVal data / 2 ^ 23 % 2 ^ 2,
        cpu_speed_dis := wordsVal data / 2 ^ 25 % 2 ^ 2,
        speed_dis := wordsVal data / 2 ^ 27 % 2 ^ 64,
        port_dis := wordsVal data / 2 ^ 91 % 2 ^ 40,
        pipe_dis := wordsVal data / 2 ^ 131 % 2 ^ 4,
        pipe0_mau_dis := wordsVal data / 2 ^ 135 % 2 ^ 21,
        pipe1_mau_dis := wordsVal data / 2 ^ 156 % 2 ^ 21,
        pipe2_mau_dis := wordsVal data / 2 ^ 177 % 2 ^ 21,
        pipe3_mau_dis := wordsVal data / 2 ^ 198 % 2 ^ 21,
        tm_mem_dis := wordsVal data / 2 ^ 219 % 2 ^ 32,
        bsync_dis := wordsVal data / 2 ^ 251 % 2,
        pgen_dis := wordsVal data / 2 ^ 252 % 2,
        resub_dis := wordsVal data / 2 ^ 253 % 2,
        voltage_scaling := wordsVal data / 2 ^ 254 % 2 ^ 12,
        rsvd_22 := wordsVal data / 2 ^ 266 % 2 ^ 22,
        part_num := wordsVal data / 2 ^ 288 % 2 ^ 14,
        rev_num := wordsVal data / 2 ^ 302 % 2 ^ 8,
        pkg_id := wordsVal data / 2 ^ 310 % 2 ^ 2,
        silent_spin := wordsVal data / 2 ^ 312 % 2 ^ 2,
        chip_id := wordsVal data / 2 ^ 314 % 2 ^ 63,
        pmro_and_skew := wordsVal data / 2 ^ 377 % 2 ^ 12,
        wf_core_repair := wordsVal data / 2 ^ 389 % 2,
        core_repair := wordsVal data / 2 ^ 390 % 2,
        tile_repair := wordsVal data / 2 ^ 391 % 2,
        freq_bps_2 := wordsVal data / 2 ^ 392 % 2 ^ 4,
        freq_pps_2 := wordsVal data / 2 ^ 396 % 2 ^ 4,
        die_rotation := wordsVal data / 2 ^ 400 % 2,
        soft_pipe_dis := wordsVal data / 2 ^ 401 % 2 ^ 4
      }) := by
  intro data h32
  constructor
  · intro hne
    rw [Fuse.try_from_slice, if_pos hne]
  · intro hlen
    have hf : ∀ a b : Nat, a ≤ b → b < 512 → b - a < 64 →
        (get_bits data a b).getD 0 = wordsVal data / 2 ^ a % 2 ^ (b - a + 1) := by
      intro a b h1 h2 h3
      rw [get_bits_spec data h32 a b h1 (by omega) h3, Option.getD_some]
    rw [Fuse.try_from_slice, if_neg (by omega)]
    rw [hf 0 15 (by norm_num) (by norm_num) (by norm_num), hf 16 17 (by norm_num) (by norm_num) (by norm_num), hf 18 18 (by norm_num) (by norm_num) (by norm_num), hf 19 20 (by norm_num) (by norm_num) (by norm_num), hf 21 22 (by norm_num) (by norm_num) (by norm_num), hf 23 24 (by norm_num) (by norm_num) (by norm_num), hf 25 26 (by norm_num) (by norm_num) (by norm_num), hf 27 90 (by norm_num) (by norm_num) (by norm_num), hf 91 130 (by norm_num) (by norm_num) (by norm_num), hf 131 134 (by norm_num) (by norm_num) (by norm_num), hf 135 155 (by norm_num) (by norm_num) (by norm_num), hf 156 176 (by norm_num) (by norm_num) (by norm_num), hf 177 197 (by norm_num) (by norm_num) (by norm_num), hf 198 218 (by norm_num) (by norm_num) (by norm_num), hf 219 250 (by norm_num) (by norm_num) (by norm_num), hf 251 251 (by norm_num) (by norm_num) (by norm_num), hf 252 252 (by norm_num) (by norm_num) (by norm_num), hf 253 253 (by norm_num) (by norm_num) (by norm_num), hf 254 265 (by norm_num) (by norm_num) (by norm_num), hf 266 287 (by norm_num) (by norm_num) (by norm_num), hf 288 301 (by norm_num) (by norm_num) (by norm_num), hf 302 309 (by norm_num) (by norm_num) (by norm_num), hf 310 311 (by norm_num) (by norm_num) (by norm_num), hf 312 313 (by norm_num) (by norm_num) (by norm_num), hf 314 376 (by norm_num) (by norm_num) (by norm_num), hf 377 388 (by norm_num) (by norm_num) (by norm_num), hf 389 389 (by norm_num) (by norm_num) (by norm_num), hf 390 390 (by norm_num) (by norm_num) (by norm_num), hf 391 391 (by norm_num) (by norm_num) (by norm_num), hf 392 395 (by norm_num) (by norm_num) (by norm_num), hf 396 399 (by norm_num) (by norm_num) (by norm_num), hf 400 400 (by norm_num) (by norm_num) (by norm_num), hf 401 404 (by norm_num) (by norm_num) (by norm_num)]
    norm_num

/-- Witness for C7: the all-zero 16-word blob decodes to the all-zero
record, and a short slice is rejected with its length. -/
theorem c7_fuse_decode_witness :
    Fuse.try_from_slice (List.replicate 16 0)
      = Except.ok (Fuse.mk 0 0 0 0 0 0 0 0 0 0 0 0 0 0 0 0 0 0 0 0 0 0 0 0 0 0 0 0 0 0 0 0 0)
    ∧ Fuse.try_from_slice [] = Except.error (FuseErr.lengthMismatch 0) := by
  constructor
  · have h := (c7_fuse_decode (List.replicate 16 0) (by simp)).2 (by simp)
    rw [h]
    rfl
  · exact (c7_fuse_decode [] (by simp)).1 (by simp)

/-! ## `crates/tftool/src/lib.rs`: identifier resolution -/

/-- Rust `char::to_digit(radix)`: the numeric value of an ASCII digit or
letter, accepted only below the radix. -/
def to_digit (c : Char) (radix : Nat) : Option Nat :=
  let v : Option Nat :=
    if '0' ≤ c ∧ c ≤ '9' then some (c.toNat - '0'.toNat)
    else if 'a' ≤ c ∧ c ≤ 'z' then some (c.toNat - 'a'.toNat + 10)
    else if 'A' ≤ c ∧ c ≤ 'Z' then some (c.toNat - 'A'.toNat + 10)
    else none
  match v with
  | some d => if d < radix then some d else none
  | none => none

/-- Digit-accumulation loop of Rust `u32::from_str_radix`: checked
multiply-and-add, failing on a non-digit or on `u32` overflow. -/
def digits_to_u32 (radix : Nat) : List Char → Nat → Option Nat
  | [], acc => some acc
  | c :: cs, acc =>
    match to_digit c radix with
    | none => none
    | some d =>
      if acc * radix + d < 2 ^ 32 then digits_to_u32 radix cs (acc * radix + d)
      else none

/-- Rust `u32::from_str_radix`: empty input fails, one optional leading
`+` sign (a `-` is not a digit of an unsigned parse and fails), then at
least one digit. -/
def from_str_radix_u32 (radix : Nat) (s : List Char) : Option Nat :=
  match s with
  | [] => none
  | c :: rest =>
    match if c = '+' then rest else c :: rest with
    | [] => none
    | digits => digits_to_u32 radix digits 0

/-- Rust `str::trim_start_matches("0x")`: strip every leading `0x`. -/
def trim_0x : List Char → List Char
  | '0' :: 'x' :: rest => trim_0x rest
  | s => s

/-- `parse_val` from `lib.rs`: a string starting with `0x` is parsed as
hexadecimal after stripping the leading `0x` repetitions, anything else
as decimal; both as `u32`. -/
def parse_val (v : String) : Option Nat :=
  match v.data with
  | '0' :: 'x' :: _ => from_str_radix_u32 16 (trim_0x v.data)
  | _ => from_str_radix_u32 10 v.data

/-- Modelled from the spec: the register tree backing `tofino_regs` is a
generated crate that is not part of the repository source (the in-tree
stub always fails); per §4.3 it resolves a dotted path to a node carrying
a declared byte size, or to its offset, failing with NotFound.  `Node`
is the in-tree stub's shape (`pub size: u32`). -/
structure Node where
  size : Nat

/-- Modelled from the spec: the `RegMap` interface of `tofino_regs`
(`get_node`, `get_offset`), injectable per §9. -/
structure RegMap where
  node_of : String → Except String Node
  offset_of : String → Except String Nat

/-- Errors surfaced by register read/write commands: the
`"bad register/offset: {reg}"` error, the `"invalid hex word"` /
`"invalid value"` errors of `parse_val` on a write value, a
register-tree error, or a propagated PCI access error. -/
inductive TfErr where
  | badIdentifier (reg : String) : TfErr
  | badValue (val : String) : TfErr
  | tree (msg : String) : TfErr
  | pci (e : PciErr) : TfErr

/-- `struct Tofino`: the register map plus the mapped PCI window. -/
structure Tofino where
  map : RegMap
  pci : Pci

/-- `read_offset` from `lib.rs`: read `cnt` consecutive 4-byte words,
advancing the offset by 4, failing on the first failed read. -/
def read_offset (p : Pci) (offset : Nat) : Nat → Except PciErr (List Nat)
  | 0 => Except.ok []
  | n + 1 => do
    let v ← p.read4 offset
    let rest ← read_offset p (offset + 4) n
    Except.ok (v :: rest)

/-- `cmd_read` from `lib.rs` (modulo printing: the read words are
returned): the identifier is first parsed as a literal via `parse_val`;
only on failure is it resolved as a tree name, which overrides the count
with `node.size / 4`; if both fail the command fails with the
bad-identifier error. -/
def cmd_read (ctx : Tofino) (reg : String) (cnt? : Option Nat) : Except TfErr (List Nat) :=
  let cnt := cnt?.getD 1
  match parse_val reg with
  | some offset => (read_offset ctx.pci offset cnt).mapError TfErr.pci
  | none =>
    match ctx.map.node_of reg with
    | Except.ok node =>
      match ctx.map.offset_of reg with
      | Except.ok offset =>
        (read_offset ctx.pci offset (node.size / 4)).mapError TfErr.pci
      | Except.error e => Except.error (TfErr.tree e)
    | Except.error _ => Except.error (TfErr.badIdentifier reg)

/-- `write_offset` from `lib.rs`. -/
def write_offset (p : Pci) (offset val : Nat) : Except PciErr Pci :=
  p.write4 offset val

/-- `cmd_write` from `lib.rs`: the identifier is first parsed as a
literal via `parse_val`; only on failure is it resolved through the
tree's `get_offset`; if both fail the command fails with the
bad-identifier error.  Only then is the value string parsed (its
`parse_val` error propagating via `?`), and exactly one word is
written. -/
def cmd_write (ctx : Tofino) (reg val : String) : Except TfErr Pci :=
  let offset? : Except TfErr Nat :=
    match parse_val reg with
    | some offset => Except.ok offset
    | none =>
      match ctx.map.offset_of reg with
      | Except.ok offset => Except.ok offset
      | Except.error _ => Except.error (TfErr.badIdentifier reg)
  match offset? with
  | Except.error e => Except.error e
  | Except.ok offset =>
    match parse_val val with
    | none => Except.error (TfErr.badValue val)
    | some v => (write_offset ctx.pci offset v).mapError TfErr.pci

/-- C4: for reads and writes alike, a successful literal parse always
wins over tree resolution (the conclusions do not depend on the tree,
which may well resolve the same name); a read resolved as a literal
with no explicit count reads one word (`cnt?.getD 1` at `none`); a
name-resolved read uses `node.size / 4` words; a write resolves through
`get_offset` and writes exactly one word; an identifier that is neither
a valid literal nor resolvable fails with the bad-identifier error in
both commands. -/
theorem c4_identifier_resolution :
    ∀ (ctx : Tofino) (reg : String) (cnt? : Option Nat),
      (∀ offset, parse_val reg = some offset →
        cmd_read ctx reg cnt?
          = (read_offset ctx.pci offset (cnt?.getD 1)).mapError TfErr.pci)
      ∧ (parse_val reg = none → ∀ node offset,
          ctx.map.node_of reg = Except.ok node →
          ctx.map.offset_of reg = Except.ok offset →
          cmd_read ctx reg cnt?
            = (read_offset ctx.pci offset (node.size / 4)).mapError TfErr.pci)
      ∧ (parse_val reg = none → ∀ e, ctx.map.node_of reg = Except.error e →
          cmd_read ctx reg cnt? = Except.error (TfErr.badIdentifier reg))
      ∧ (∀ offset v val, parse_val reg = some offset → parse_val val = some v →
          cmd_write ctx reg val
            = (write_offset ctx.pci offset v).mapError TfErr.pci)
      ∧ (∀ offset val, parse_val reg = some offset → parse_val val = none →
          cmd_write ctx reg val = Except.error (TfErr.badValue val))
      ∧ (parse_val reg = none → ∀ offset v val,
          ctx.map.offset_of reg = Except.ok offset → parse_val val = some v →
          cmd_write ctx reg val
            = (write_offset ctx.pci offset v).mapError TfErr.pci)
      ∧ (parse_val reg = none → ∀ e val, ctx.map.offset_of reg = Except.error e →
          cmd_write ctx reg val = Except.error (TfErr.badIdentifier reg)) := by
  intro ctx reg cnt?
  refine ⟨fun offset h => ?_, fun h node offset hn ho => ?_, fun h e hn => ?_,
    fun offset v val h hv => ?_, fun offset val h hv => ?_,
    fun h offset v val ho hv => ?_, fun h e val ho => ?_⟩
  · rw [cmd_read, h]
  · rw [cmd_read, h, hn, ho]
  · rw [cmd_read, h, hn]
  · rw [cmd_write, h]
    dsimp only
    rw [hv]
  · rw [cmd_write, h]
    dsimp only
    rw [hv]
  · rw [cmd_write, h, ho]
    dsimp only
    rw [hv]
  · rw [cmd_write, h, ho]

/-- Witness for C4: `"0x10"` resolves as the literal 16, for a one-word
read and for a write of the parsed value 7, even against a register map
that resolves every name. -/
theorem c4_identifier_resolution_witness :
    parse_val "0x10" = some 16
    ∧ cmd_read ⟨⟨fun _ => Except.ok ⟨8⟩, fun _ => Except.ok 0⟩, ⟨64, fun _ => 7⟩⟩
        "0x10" none
      = (read_offset ⟨64, fun _ => 7⟩ 16 1).mapError TfErr.pci
    ∧ cmd_write ⟨⟨fun _ => Except.ok ⟨8⟩, fun _ => Except.ok 0⟩, ⟨64, fun _ => 7⟩⟩
        "0x10" "7"
      = (write_offset ⟨64, fun _ => 7⟩ 16 7).mapError TfErr.pci :=
  ⟨rfl, (c4_identifier_resolution ⟨⟨fun _ => Except.ok ⟨8⟩, fun _ => Except.ok 0⟩,
    ⟨64, fun _ => 7⟩⟩ "0x10" none).1 16 rfl,
   (c4_identifier_resolution ⟨⟨fun _ => Except.ok ⟨8⟩, fun _ => Except.ok 0⟩,
    ⟨64, fun _ => 7⟩⟩ "0x10" none).2.2.2.1 16 7 "7" rfl rfl⟩

/-! ## `crates/tftool/src/lib.rs`: search -/

/-- Rust `str::contains(&str)` on character lists: some suffix of `s`
has `pat` as a prefix (the empty pattern is contained in anything). -/
def listContainsSub (pat : List Char) : List Char → Bool
  | [] => pat.isEmpty
  | c :: rest => pat.isPrefixOf (c :: rest) || listContainsSub pat rest

/-- Rust `str::contains(&str)`. -/
def strContains (s pat : String) : Bool :=
  listContainsSub pat.data s.data

/-- Modelled from the spec: the static register tree behind
`tofino_regs` (a generated crate not in the repository source; the
in-tree stub always fails).  Per §3 a node carries an ordered sequence
of named children; a node with no children is a leaf.  `get_node` on the
extended path `path.name` yields exactly the corresponding child, so the
traversal below recurses on the child subtree directly. -/
inductive RTree where
  | node (children : List (String × RTree)) : RTree

mutual

/-- `search_in` from `lib.rs` over an explicit tree: at a childless node
(leaf) test whether the full dotted path contains the target, bump the
count and print (collect) the path only while the running count is at
most `max`; otherwise recurse into each child in declaration order with
the path extended by `"." ++ name`.  Returns the final count and the
collected lines. -/
def search_in (t : RTree) (path tgt : String) (max cnt : Nat) : Nat × List String :=
  match t with
  | .node [] =>
    if strContains path tgt then
      (cnt + 1, if cnt + 1 ≤ max then [path] else [])
    else (cnt, [])
  | .node (c :: cs) => search_children (c :: cs) path tgt max cnt

/-- The `for name in &children` loop of `search_in`, threading `cnt`. -/
def search_children (cs : List (String × RTree)) (path tgt : String) (max cnt : Nat) :
    Nat × List String :=
  match cs with
  | [] => (cnt, [])
  | (name, child) :: rest =>
    let r1 := search_in child (path ++ "." ++ name) tgt max cnt
    let r2 := search_children rest path tgt max r1.1
    (r2.1, r1.2 ++ r2.2)

end

/-- `search` from `lib.rs`: run `search_in` from the root path `"."`
with count 0; report the final count (the `"{} matches found"` line) and
the printed paths, and fail with `"not found"` exactly when the count is
zero. -/
def search (t : RTree) (max : Nat) (tgt : String) : Except String (Nat × List String) :=
  let r := search_in t "." tgt max 0
  if r.1 = 0 then Except.error "not found" else Except.ok r

mutual

/-- Specification-side list of all leaf paths, depth-first in
declaration order. -/
def leafPaths (t : RTree) (path : String) : List String :=
  match t with
  | .node [] => [path]
  | .node (c :: cs) => leafPathsChildren (c :: cs) path

def leafPathsChildren (cs : List (String × RTree)) (path : String) : List String :=
  match cs with
  | [] => []
  | (name, child) :: rest =>
    leafPaths child (path ++ "." ++ name) ++ leafPathsChildren rest path

end

mutual

theorem search_in_eq (tgt : String) (max : Nat) (t : RTree) (path : String) (cnt : Nat) :
    search_in t path tgt max cnt
      = (cnt + ((leafPaths t path).filter (fun p => strContains p tgt)).length,
         ((leafPaths t path).filter (fun p => strContains p tgt)).take (max - cnt)) := by
  match t with
  | .node [] =>
    rw [search_in, leafPaths]
    by_cases h : strContains path tgt
    · simp only [h, List.filter_cons, List.filter_nil, if_true, List.length_cons,
        List.length_nil]
      rcases Nat.eq_zero_or_pos (max - cnt) with h0 | hpos
    -- count exceeded: nothing is taken
      · rw [h0]
        simp only [List.take_zero, Prod.mk.injEq]
        exact ⟨trivial, by rw [if_neg (by omega)]⟩
      · simp only [Prod.mk.injEq]
        refine ⟨trivial, ?_⟩
        rw [List.take_of_length_le (by simp; omega), if_pos (by omega)]
    · simp [h]
  | .node (c :: cs) =>
    rw [search_in, leafPaths]
    exact search_children_eq tgt max (c :: cs) path cnt
termination_by sizeOf t

theorem search_children_eq (tgt : String) (max : Nat) (cs : List (String × RTree))
    (path : String) (cnt : Nat) :
    search_children cs path tgt max cnt
      = (cnt + ((leafPathsChildren cs path).filter (fun p => strContains p tgt)).length,
         ((leafPathsChildren cs path).filter (fun p => strContains p tgt)).take (max - cnt)) := by
  match cs with
  | [] => simp [search_children, leafPathsChildren]
  | (name, child) :: rest =>
    rw [search_children, leafPathsChildren]
    rw [search_in_eq tgt max child (path ++ "." ++ name) cnt]
    rw [search_children_eq tgt max rest path _]
    simp only [List.filter_append, List.length_append,
      List.take_append_eq_append_take, Prod.mk.injEq]
    refine ⟨Nat.add_assoc _ _ _, ?_⟩
    rw [Nat.sub_sub]
termination_by sizeOf cs

end

/-- C5: `search` visits leaves depth-first in declaration order, prints
(at most) the first `max` leaf paths containing the target, keeps
counting past the maximum so the reported total equals the true number
of matching leaves, and yields the distinct `"not found"` outcome
exactly when no leaf matches. -/
theorem c5_search_counts_and_not_found (t : RTree) (tgt : String) (max : Nat) :
    search t max tgt
      = (if ((leafPaths t ".").filter (fun p => strContains p tgt)).length = 0
         then Except.error "not found"
         else Except.ok
            (((leafPaths t ".").filter (fun p => strContains p tgt)).length,
             ((leafPaths t ".").filter (fun p => strContains p tgt)).take max)) := by
  rw [search, search_in_eq]
  simp

/-! ## `crates/tftool/src/dr.rs` -/

/-- The `DrFieldOffsets` of the 11 ring record fields, in field order:
Ctrl, BaseAddrLow, BaseAddrHigh, LimitAddrLow, LimitAddrHigh, Size,
HeadPtr, TailPtr, RingTimeout, DataTimeout, Status. -/
def drFieldOffsets : List Nat :=
  [0x00, 0x04, 0x08, 0x0c, 0x10, 0x14, 0x18, 0x1c, 0x20, 0x24, 0x28]

/-- `struct Dr`: one descriptor ring's register block. -/
structure Dr where
  ctrl : Nat
  base_addr_low : Nat
  base_addr_high : Nat
  limit_addr_low : Nat
  limit_addr_high : Nat
  size : Nat
  head_ptr : Nat
  tail_ptr : Nat
  ring_timeout : Nat
  data_timeout : Nat
  status : Nat
deriving DecidableEq

/-- Lexicographic order on character lists by code point (Rust string
order is lexicographic byte order; on ASCII keys the two agree). -/
def charListLt : List Char → List Char → Bool
  | _, [] => false
  | [], _ :: _ => true
  | a :: as, b :: bs =>
    if a.toNat < b.toNat then true
    else if a.toNat = b.toNat then charListLt as bs
    else false

/-- Rust `String` ordering. -/
def strLt (a b : String) : Bool :=
  charListLt a.data b.data

/-- `BTreeMap::insert` on a sorted association list. -/
def bt_insert (k : String) (v : Nat) : List (String × Nat) → List (String × Nat)
  | [] => [(k, v)]
  | (k', v') :: rest =>
    if strLt k k' then (k, v) :: (k', v') :: rest
    else if k = k' then (k, v) :: rest
    else (k', v') :: bt_insert k v rest

/-- `BTreeMap::get`: exact (character for character) key lookup. -/
def bt_get (k : String) : List (String × Nat) → Option Nat
  | [] => none
  | (k', v') :: rest => if k = k' then some v' else bt_get k rest

/-- The insertion sequence of `get_drs` from `dr.rs`, in source order.
Note the trailing space in the `"fm_pkt_1 "` key. -/
def drInserts : List (String × Nat) := [
  ("fm_pkt_0", 0x300400),
  ("fm_pkt_1 ", 0x300434),
  ("fm_pkt_2", 0x300468),
  ("fm_pkt_3", 0x30049c),
  ("fm_pkt_4", 0x3004d0),
  ("fm_pkt_5", 0x300504),
  ("fm_pkt_6", 0x300538),
  ("fm_pkt_7", 0x30056c),
  ("fm_lrt", 0x200900),
  ("fm_idle", 0x200980),
  ("fm_learn", 0x280600),
  ("fm_diag", 0x200a00),
  ("tx_pipe_inst_list_0", 0x200600),
  ("tx_pipe_inst_list_1", 0x200634),
  ("tx_pipe_inst_list_2", 0x200668),
  ("tx_pipe_inst_list_3", 0x20069c),
  ("tx_pipe_write_block", 0x200800),
  ("tx_pipe_read_block", 0x200880),
  ("tx_que_write_list", 0x280400),
  ("tx_pkt_0", 0x300100),
  ("tx_pkt_1", 0x300134),
  ("tx_pkt_2", 0x300168),
  ("tx_pkt_3", 0x30019c),
  ("tx_mac_stat", 0x180200),
  ("rx_pkt_0", 0x300600),
  ("rx_pkt_1", 0x300634),
  ("rx_pkt_2", 0x300668),
  ("rx_pkt_3", 0x30069c),
  ("rx_pkt_4", 0x3006d0),
  ("rx_pkt_5", 0x300704),
  ("rx_pkt_6", 0x300738),
  ("rx_pkt_7", 0x30076c),
  ("rx_lrt", 0x200940),
  ("rx_idle", 0x2009c0),
  ("rx_learn", 0x280640),
  ("rx_diag", 0x200a40),
  ("cmp_pipe_inst_list_0", 0x200700),
  ("cmp_pipe_inst_list_1", 0x200734),
  ("cmp_pipe_inst_list_2", 0x200768),
  ("cmp_pipe_inst_list_3", 0x20079c),
  ("cmp_que_write_list", 0x280440),
  ("cmp_pipe_write_blk", 0x200840),
  ("cmp_pipe_read_blk", 0x2008c0),
  ("cmp_mac_stat", 0x180240),
  ("cmp_tx_pkt_0", 0x300200),
  ("cmp_tx_pkt_1", 0x300234),
  ("cmp_tx_pkt_2", 0x300268),
  ("cmp_tx_pkt_3", 0x30029c),
  ("tx_mac_write_block", 0x180280),
  ("tx_que_write_list_1", 0x280480),
  ("tx_que_read_block_0", 0x280500),
  ("tx_que_read_block_1", 0x280580),
  ("cmp_mac_write_block", 0x1802c0),
  ("cmp_que_write_list_1", 0x2804c0),
  ("cmp_que_read_block_0", 0x280540),
  ("cmp_que_read_block_1", 0x2805c0)
]

/-- `get_drs` from `dr.rs`: the `BTreeMap` of ring names to base
offsets.  Iterating it (as `list` and `dump` do) yields name order. -/
def get_drs : List (String × Nat) :=
  drInserts.foldl (fun m kv => bt_insert kv.1 kv.2 m) []

/-- Read a list of 4-byte words at the given byte offsets, failing on
the first failed read (the sequential `?`-reads of `read_dr`). -/
def readMany (p : Pci) : List Nat → Except PciErr (List Nat)
  | [] => Except.ok []
  | o :: os =>
    match p.read4 o with
    | Except.error e => Except.error e
    | Except.ok v =>
      match readMany p os with
      | Except.error e => Except.error e
      | Except.ok rest => Except.ok (v :: rest)

/-- `read_dr` from `dr.rs`: eleven sequential 4-byte reads at
`offset + DrFieldOffsets::…` in field order, filling the `Dr` record;
the first failed read aborts the record.  (The struct fields are listed
in the same order as the offsets, so position `i` of the read list is
field `i`.) -/
def read_dr (p : Pci) (offset : Nat) : Except PciErr Dr :=
  (readMany p (drFieldOffsets.map (fun k => offset + k))).map fun vs =>
    ⟨vs.getD 0 0, vs.getD 1 0, vs.getD 2 0, vs.getD 3 0, vs.getD 4 0,
     vs.getD 5 0, vs.getD 6 0, vs.getD 7 0, vs.getD 8 0, vs.getD 9 0,
     vs.getD 10 0⟩

/-- Error outcomes of `show`: `"no such DR"`, or a propagated PCI
error. -/
inductive DrErr where
  | noSuchDr : DrErr
  | pci (e : PciErr) : DrErr
deriving DecidableEq

/-- `show` from `dr.rs` (modulo printing: the record is returned): look
the name up in the fixed table, fail with `"no such DR"` when absent,
else delegate to `read_dr`. -/
def show_dr (p : Pci) (dr : String) : Except DrErr Dr :=
  match bt_get dr get_drs with
  | some o => (read_dr p o).mapError DrErr.pci
  | none => Except.error DrErr.noSuchDr

/-- Right-pad with spaces to the given width (Rust `{:width}` for
strings). -/
def padRight (s : String) (w : Nat) : String :=
  s ++ String.mk (List.replicate (w - s.length) ' ')

/-- Lowercase hex digit. -/
def hexDigit (n : Nat) : Char :=
  if n < 10 then Char.ofNat (48 + n) else Char.ofNat (87 + n)

/-- Hex digits of `n`, most significant first (8 digits suffice for a
`u32`). -/
def hexDigitsFuel : Nat → Nat → List Char
  | 0, _ => []
  | fuel + 1, n => if n = 0 then [] else hexDigitsFuel fuel (n / 16) ++ [hexDigit (n % 16)]

/-- Rust `{:x}` of a `u32`. -/
def hexStr (n : Nat) : String :=
  if n = 0 then "0" else String.mk (hexDigitsFuel 8 n)

/-- Rust `0x{:>06x}`: `0x` followed by the hex value zero-padded to six
digits. -/
def fmtHex06 (n : Nat) : String :=
  let s := hexStr n
  "0x" ++ String.mk (List.replicate (6 - s.length) '0') ++ s

/-- One data line of `list` from `dr.rs`: `"{:21} 0x{:>06x}"`. -/
def dr_list_line (name : String) (offset : Nat) : String :=
  padRight name 21 ++ " " ++ fmtHex06 offset

/-- `list` from `dr.rs` (data lines, in map iteration order). -/
def dr_list : List String :=
  get_drs.map fun kv => dr_list_line kv.1 kv.2

/-- One output line of `dump`: a per-ring data line, or the
`"base->limit range doesn't match size of {}"` diagnostic. -/
inductive DumpLine where
  | data (name : String) (ctrl base limit head tail status : Nat) : DumpLine
  | mismatch (size : Nat) : DumpLine
deriving DecidableEq

/-- Wrapping `u64` subtraction (`limit - base` in a release build). -/
def wsub64 (a b : Nat) : Nat :=
  (a + 2 ^ 64 - b) % 2 ^ 64

/-- The body of `dump`'s loop for one ring: read the record, emit its
data line with the composed 64-bit base and limit, and — when
`limit - base != size` — additionally emit the mismatch diagnostic. -/
def dump_ring (p : Pci) (name : String) (offset : Nat) : Except PciErr (List DumpLine) :=
  match read_dr p offset with
  | Except.error e => Except.error e
  | Except.ok dr =>
    let base := (dr.base_addr_high <<< 32) ||| dr.base_addr_low
    let limit := (dr.limit_addr_high <<< 32) ||| dr.limit_addr_low
    Except.ok (DumpLine.data name dr.ctrl base limit dr.head_ptr dr.tail_ptr dr.status
      :: (if wsub64 limit base ≠ dr.size then [DumpLine.mismatch dr.size] else []))

/-- The `for (name, offset) in get_drs()` loop of `dump`. -/
def dump_go (p : Pci) : List (String × Nat) → Except PciErr (List DumpLine)
  | [] => Except.ok []
  | (name, offset) :: rest =>
    match dump_ring p name offset with
    | Except.error e => Except.error e
    | Except.ok lines =>
      match dump_go p rest with
      | Except.error e => Except.error e
      | Except.ok restLines => Except.ok (lines ++ restLines)

/-- `dump` from `dr.rs` (output lines, header omitted). -/
def dump (p : Pci) : Except PciErr (List DumpLine) :=
  dump_go p get_drs

theorem and_three_eq_mod (x : Nat) : x &&& 3 = x % 4 := by
  have h := Nat.and_pow_two_sub_one_eq_mod x 2
  norm_num at h
  exact h

/-- A 4-byte read succeeds (returning the mapped word) at any aligned
offset with `offset + 4 < len`. -/
theorem read4_ok (mem : Nat → Nat) (len offset : Nat) (hal : offset % 4 = 0)
    (hb : offset + 4 < len) (hlen : len < 2 ^ 32) :
    (Pci.mk len mem).read4 offset = Except.ok (mem (offset >>> 2)) := by
  rw [Pci.read4, get_word_ptr]
  rw [if_neg (by rw [and_three_eq_mod]; omega), if_neg ?_]
  · rfl
  · rw [Nat.mod_eq_of_lt (by omega : offset + 4 < 2 ^ 32), Nat.mod_eq_of_lt hlen]
    omega

/-- `readMany` over in-range aligned offsets returns the mapped words. -/
theorem readMany_ok (mem : Nat → Nat) (len : Nat) (hlen : len < 2 ^ 32) :
    ∀ os : List Nat, (∀ o ∈ os, o % 4 = 0 ∧ o + 4 < len) →
      readMany (Pci.mk len mem) os = Except.ok (os.map fun o => mem (o >>> 2)) := by
  intro os
  induction os with
  | nil => intro _; rfl
  | cons o os ih =>
    intro h
    obtain ⟨h1, h2⟩ := h o (List.mem_cons_self o os)
    rw [readMany, read4_ok mem len o h1 h2 hlen]
    dsimp only
    rw [ih (fun o' ho' => h o' (List.mem_cons_of_mem o ho'))]
    rfl

/-- When `readMany` fails it fails with the first failing read: the
offset list splits at a failing offset preceded only by readable
offsets. -/
theorem readMany_error (p : Pci) :
    ∀ (os : List Nat) (e : PciErr), readMany p os = Except.error e →
      ∃ pre o post, os = pre ++ o :: post ∧ (∀ o' ∈ pre, (p.read4 o').isOk)
        ∧ p.read4 o = Except.error e := by
  intro os
  induction os with
  | nil => intro e h; simp [readMany] at h
  | cons o os ih =>
    intro e h
    rw [readMany] at h
    cases h0 : p.read4 o with
    | error e0 =>
      rw [h0] at h
      dsimp only at h
      injection h with h
      exact ⟨[], o, os, rfl, by simp, by rw [h0, h]⟩
    | ok v =>
      rw [h0] at h
      dsimp only at h
      cases h1 : readMany p os with
      | error e1 =>
        rw [h1] at h
        dsimp only at h
        injection h with h
        subst h
        obtain ⟨pre, o', post, hsplit, hpre, hfail⟩ := ih e1 h1
        exact ⟨o :: pre, o', post, by rw [hsplit]; rfl, by
          intro x hx
          rcases List.mem_cons.mp hx with rfl | hx
          · rw [h0]; rfl
          · exact hpre x hx, hfail⟩
      | ok rest =>
        rw [h1] at h
        dsimp only at h
        exact absurd h (by simp)

/-- The `Dr` record read back from a fully mapped window. -/
def drAt (mem : Nat → Nat) (offset : Nat) : Dr :=
  ⟨mem ((offset + 0x00) >>> 2), mem ((offset + 0x04) >>> 2), mem ((offset + 0x08) >>> 2),
   mem ((offset + 0x0c) >>> 2), mem ((offset + 0x10) >>> 2), mem ((offset + 0x14) >>> 2),
   mem ((offset + 0x18) >>> 2), mem ((offset + 0x1c) >>> 2), mem ((offset + 0x20) >>> 2),
   mem ((offset + 0x24) >>> 2), mem ((offset + 0x28) >>> 2)⟩

theorem read_dr_ok (mem : Nat → Nat) (len offset : Nat) (hal : offset % 4 = 0)
    (hb : offset + 0x2c < len) (hlen : len < 2 ^ 32) :
    read_dr (Pci.mk len mem) offset = Except.ok (drAt mem offset) := by
  rw [read_dr, readMany_ok mem len hlen _ ?_]
  · rfl
  · intro o ho
    simp only [drFieldOffsets, List.map_cons, List.map_nil, List.mem_cons,
      List.not_mem_nil, or_false] at ho
    rcases ho with rfl | rfl | rfl | rfl | rfl | rfl | rfl | rfl | rfl | rfl | rfl <;>
      constructor <;> omega

/-- When `read_dr` fails it fails with the first failing of its eleven
field reads. -/
theorem read_dr_error (p : Pci) (offset : Nat) (e : PciErr)
    (h : read_dr p offset = Except.error e) :
    ∃ pre o post, drFieldOffsets.map (fun k => offset + k) = pre ++ o :: post
      ∧ (∀ o' ∈ pre, (p.read4 o').isOk) ∧ p.read4 o = Except.error e := by
  rw [read_dr] at h
  cases h1 : readMany p (drFieldOffsets.map fun k => offset + k) with
  | error e1 =>
    rw [h1] at h
    injection h with h
    subst h
    exact readMany_error p _ e1 h1
  | ok vs =>
    rw [h1] at h
    exact absurd h (by simp [Except.map])

/-- Specification-side output of `dump` over a fully mapped window: one
data line per ring in map order, followed by the mismatch diagnostic
exactly when the composed 64-bit `limit - base` differs from the size
field. -/
def dumpSpec (mem : Nat → Nat) : List (String × Nat) → List DumpLine
  | [] => []
  | (name, offset) :: rest =>
    let dr := drAt mem offset
    let base := (dr.base_addr_high <<< 32) ||| dr.base_addr_low
    let limit := (dr.limit_addr_high <<< 32) ||| dr.limit_addr_low
    (DumpLine.data name dr.ctrl base limit dr.head_ptr dr.tail_ptr dr.status
      :: (if wsub64 limit base ≠ dr.size then [DumpLine.mismatch dr.size] else []))
      ++ dumpSpec mem rest

theorem dump_go_ok (mem : Nat → Nat) (len : Nat) (hlen : len < 2 ^ 32) :
    ∀ rings : List (String × Nat),
      (∀ kv ∈ rings, kv.2 % 4 = 0 ∧ kv.2 + 0x2c < len) →
      dump_go (Pci.mk len mem) rings = Except.ok (dumpSpec mem rings) := by
  intro rings
  induction rings with
  | nil => intro _; rfl
  | cons kv rest ih =>
    intro h
    obtain ⟨name, offset⟩ := kv
    obtain ⟨h1, h2⟩ := h (name, offset) (List.mem_cons_self _ _)
    rw [dump_go, dump_ring, read_dr_ok mem len offset h1 h2 hlen]
    dsimp only
    rw [ih (fun kv' hkv' => h kv' (List.mem_cons_of_mem _ hkv'))]
    rfl

/-- When the dump loop fails it fails with the first ring whose record
read fails; every earlier ring was read completely. -/
theorem dump_go_error (p : Pci) :
    ∀ (rings : List (String × Nat)) (e : PciErr), dump_go p rings = Except.error e →
      ∃ pre kv post, rings = pre ++ kv :: post
        ∧ (∀ kv' ∈ pre, (read_dr p kv'.2).isOk)
        ∧ read_dr p kv.2 = Except.error e := by
  intro rings
  induction rings with
  | nil => intro e h; simp [dump_go] at h
  | cons kv rest ih =>
    intro e h
    obtain ⟨name, offset⟩ := kv
    rw [dump_go, dump_ring] at h
    cases h0 : read_dr p offset with
    | error e0 =>
      rw [h0] at h
      dsimp only at h
      injection h with h
      exact ⟨[], (name, offset), rest, rfl, by simp, by rw [h0, h]⟩
    | ok dr =>
      rw [h0] at h
      dsimp only at h
      cases h1 : dump_go p rest with
      | error e1 =>
        rw [h1] at h
        dsimp only at h
        injection h with h
        subst h
        obtain ⟨pre, kv', post, hsplit, hpre, hfail⟩ := ih e1 h1
        exact ⟨(name, offset) :: pre, kv', post, by rw [hsplit]; rfl, by
          intro x hx
          rcases List.mem_cons.mp hx with rfl | hx
          · rw [h0]; rfl
          · exact hpre x hx, hfail⟩
      | ok restLines =>
        rw [h1] at h
        dsimp only at h
        exact absurd h (by simp)

/-- Every ring base offset in the fixed table is 4-byte aligned and its
whole 11-word record fits inside the 72 MiB window. -/
theorem get_drs_offsets_ok :
    ∀ kv ∈ get_drs, kv.2 % 4 = 0 ∧ kv.2 + 0x2c < 72 * 1024 * 1024 := by
  decide

/-- C6: over a fully mapped window `dump` succeeds and produces, for
every ring in name order, its data line plus — exactly when the 64-bit
`limit - base` differs from the size field — an advisory mismatch line;
a mismatch never makes `dump` fail and never stops the iteration.
`dump` fails only when an underlying 4-byte read fails, and then with
the first failing read: the ring table splits at the first ring whose
record read fails, and that ring's field-offset list splits at the
first failing field read. -/
theorem c6_dump_advisory_mismatch_and_first_failure :
    (∀ mem : Nat → Nat,
      dump (Pci.mk (72 * 1024 * 1024) mem) = Except.ok (dumpSpec mem get_drs))
    ∧ (∀ (p : Pci) (e : PciErr), dump p = Except.error e →
        ∃ pre kv post, get_drs = pre ++ kv :: post
          ∧ (∀ kv' ∈ pre, (read_dr p kv'.2).isOk)
          ∧ read_dr p kv.2 = Except.error e
          ∧ ∃ preo o posto, drFieldOffsets.map (fun k => kv.2 + k) = preo ++ o :: posto
              ∧ (∀ o' ∈ preo, (p.read4 o').isOk)
              ∧ p.read4 o = Except.error e) := by
  constructor
  · intro mem
    exact dump_go_ok mem _ (by norm_num) get_drs get_drs_offsets_ok
  · intro p e h
    obtain ⟨pre, kv, post, hsplit, hpre, hfail⟩ := dump_go_error p get_drs e h
    exact ⟨pre, kv, post, hsplit, hpre, hfail, read_dr_error p kv.2 e hfail⟩

/-- Witness for C6: on an unmapped window (length 0) `dump` fails with
the very first read of the first ring in name order (`cmp_mac_stat` at
`0x180240`), and the theorem locates that first failure. -/
theorem c6_dump_witness :
    ∃ pre kv post, get_drs = pre ++ kv :: post
      ∧ (∀ kv' ∈ pre, (read_dr (Pci.mk 0 fun _ => 0) kv'.2).isOk)
      ∧ read_dr (Pci.mk 0 fun _ => 0) kv.2
          = Except.error (PciErr.outsideMappedRange 0x180240)
      ∧ ∃ preo o posto,
          drFieldOffsets.map (fun k => kv.2 + k) = preo ++ o :: posto
          ∧ (∀ o' ∈ preo, ((Pci.mk 0 fun _ => 0).read4 o').isOk)
          ∧ (Pci.mk 0 fun _ => 0).read4 o
              = Except.error (PciErr.outsideMappedRange 0x180240) :=
  c6_dump_advisory_mismatch_and_first_failure.2 (Pci.mk 0 fun _ => 0)
    (PciErr.outsideMappedRange 0x180240) rfl

/-- A successful `bt_get` lookup is a table entry. -/
theorem bt_get_mem (k : String) (v : Nat) :
    ∀ m : List (String × Nat), bt_get k m = some v → (k, v) ∈ m := by
  intro m
  induction m with
  | nil => intro h; simp [bt_get] at h
  | cons kv rest ih =>
    intro h
    obtain ⟨k', v'⟩ := kv
    rw [bt_get] at h
    by_cases he : k = k'
    · rw [if_pos he] at h
      injection h with h
      rw [he, h]
      exact List.mem_cons_self _ _
    · rw [if_neg he] at h
      exact List.mem_cons_of_mem _ (ih h)

/-- C10: the descriptor-ring table stores the key `"fm_pkt_1 "` with a
trailing space: `list` prints for it exactly the line that the name
`fm_pkt_1` would render (the column padding swallows the space), while
`show("fm_pkt_1")` without the space fails with `"no such DR"`; in
general, against a fully mapped window, `show` succeeds exactly when
the name matches a table key character for character. -/
theorem c10_trailing_space_key :
    bt_get "fm_pkt_1 " get_drs = some 0x300434
    ∧ bt_get "fm_pkt_1" get_drs = none
    ∧ dr_list_line "fm_pkt_1 " 0x300434 ∈ dr_list
    ∧ dr_list_line "fm_pkt_1 " 0x300434 = dr_list_line "fm_pkt_1" 0x300434
    ∧ (∀ p : Pci, show_dr p "fm_pkt_1" = Except.error DrErr.noSuchDr)
    ∧ (∀ (name : String) (mem : Nat → Nat),
        (show_dr (Pci.mk (72 * 1024 * 1024) mem) name).isOk
          ↔ (bt_get name get_drs).isSome) := by
  refine ⟨rfl, rfl, ?_, rfl, fun p => rfl, ?_⟩
  · have hm : ("fm_pkt_1 ", 0x300434) ∈ get_drs := bt_get_mem _ _ get_drs rfl
    exact List.mem_map_of_mem (fun kv => dr_list_line kv.1 kv.2) hm
  · intro name mem
    cases h : bt_get name get_drs with
    | none =>
      rw [show_dr, h]
      rfl
    | some o =>
      have hm := bt_get_mem name o get_drs h
      obtain ⟨h1, h2⟩ := get_drs_offsets_ok (name, o) hm
      rw [show_dr, h]
      dsimp only
      rw [read_dr_ok mem _ o h1 h2 (by norm_num)]
      rfl

/-! ## `src/tftool/mac.rs` -/

/-- `struct Eth400GStatus`: eight byte-wide per-channel fields. -/
structure Eth400GStatus where
  macsts_lfault : Nat
  macsts_rfault : Nat
  macsts_ofault : Nat
  macsts_linkup : Nat
  macsts_sigok : Nat
  macsts_txidle : Nat
  macsts_rxidle : Nat
  macsts_txgood : Nat
deriving DecidableEq

/-- `read_register` from `lib.rs`: resolve the path through the
register map (modelled from the spec, see `RegMap`), then read `cnt`
words. -/
def read_register (ctx : Tofino) (reg : String) (cnt : Nat) : Except TfErr (List Nat) :=
  match ctx.map.offset_of reg with
  | Except.ok offset => (read_offset ctx.pci offset cnt).mapError TfErr.pci
  | Except.error e => Except.error (TfErr.tree e)

/-- `format!("eth400g_p{}.eth400g_mac", mac)` with `".eth_status0"`. -/
def eth_status0_path (mac : Nat) : String :=
  "eth400g_p" ++ toString mac ++ ".eth400g_mac" ++ ".eth_status0"

/-- `format!("eth400g_p{}.eth400g_mac", mac)` with `".eth_status1"`. -/
def eth_status1_path (mac : Nat) : String :=
  "eth400g_p" ++ toString mac ++ ".eth400g_mac" ++ ".eth_status1"

/-- `eth400g_status` from `mac.rs`: read one word from each of the two
templated status registers, then extract four byte-wide fields from
each (`as u8`, hence `% 256`): lfault, rfault, ofault, linkup from
register 0 and sigok, txidle, rxidle, txgood from register 1, at bit
ranges 0..=7, 8..=15, 16..=23, 24..=31. -/
def eth400g_status (ctx : Tofino) (mac : Nat) : Except TfErr Eth400GStatus :=
  match read_register ctx (eth_status0_path mac) 1 with
  | Except.error e => Except.error e
  | Except.ok stat0 =>
    match read_register ctx (eth_status1_path mac) 1 with
    | Except.error e => Except.error e
    | Except.ok stat1 =>
      Except.ok {
        macsts_lfault := (get_bits stat0 0 7).getD 0 % 256,
        macsts_rfault := (get_bits stat0 8 15).getD 0 % 256,
        macsts_ofault := (get_bits stat0 16 23).getD 0 % 256,
        macsts_linkup := (get_bits stat0 24 31).getD 0 % 256,
        macsts_sigok := (get_bits stat1 0 7).getD 0 % 256,
        macsts_txidle := (get_bits stat1 8 15).getD 0 % 256,
        macsts_rxidle := (get_bits stat1 16 23).getD 0 % 256,
        macsts_txgood := (get_bits stat1 24 31).getD 0 % 256 }

/-- The `for mac in 1..32` loop of `show_all_eth400g`, collecting the
per-MAC status and failing on the first unreadable MAC. -/
def show_all_go (ctx : Tofino) : List Nat → Except TfErr (List (Nat × Eth400GStatus))
  | [] => Except.ok []
  | m :: ms =>
    match eth400g_status ctx m with
    | Except.error e => Except.error e
    | Except.ok s =>
      match show_all_go ctx ms with
      | Except.error e => Except.error e
      | Except.ok rest => Except.ok ((m, s) :: rest)

/-- `show_all_eth400g` from `mac.rs`: the Rust range `1..32` is the
mac ids 1 through 31 inclusive. -/
def show_all_eth400g (ctx : Tofino) : Except TfErr (List (Nat × Eth400GStatus)) :=
  show_all_go ctx (List.range' 1 31)

/-- An 8-bit field of a single 32-bit status word. -/
theorem get_bits_single_word (v s : Nat) (hv : v < 2 ^ 32) (hs : s + 7 < 32) :
    (get_bits [v] s (s + 7)).getD 0 % 256 = v / 2 ^ s % 2 ^ 8 := by
  rw [get_bits_spec [v] (by intro w hw; simp at hw; omega) s (s + 7) (by omega)
    (by simp; omega) (by omega), Option.getD_some]
  have hw : wordsVal [v] = v := by simp [wordsVal]
  have h8 : s + 7 - s + 1 = 8 := by omega
  rw [hw, h8]
  have h256 : (2 : Nat) ^ 8 = 256 := by norm_num
  rw [h256]
  omega

theorem show_all_go_isOk (ctx : Tofino) :
    ∀ ms : List Nat, (∀ m ∈ ms, (eth400g_status ctx m).isOk) →
      (show_all_go ctx ms).isOk := by
  intro ms
  induction ms with
  | nil => intro _; rfl
  | cons m ms ih =>
    intro h
    rw [show_all_go]
    cases h0 : eth400g_status ctx m with
    | error e =>
      have := h m (List.mem_cons_self m ms)
      rw [h0] at this
      simp [Except.isOk, Except.toBool] at this
    | ok s =>
      dsimp only
      cases h1 : show_all_go ctx ms with
      | error e =>
        have := ih (fun m' hm' => h m' (List.mem_cons_of_mem m hm'))
        rw [h1] at this
        simp [Except.isOk, Except.toBool] at this
      | ok rest => rfl

theorem show_all_go_error (ctx : Tofino) :
    ∀ (ms : List Nat) (e : TfErr), show_all_go ctx ms = Except.error e →
      ∃ pre m post, ms = pre ++ m :: post
        ∧ (∀ m' ∈ pre, (eth400g_status ctx m').isOk)
        ∧ eth400g_status ctx m = Except.error e := by
  intro ms
  induction ms with
  | nil => intro e h; simp [show_all_go] at h
  | cons m ms ih =>
    intro e h
    rw [show_all_go] at h
    cases h0 : eth400g_status ctx m with
    | error e0 =>
      rw [h0] at h
      dsimp only at h
      injection h with h
      exact ⟨[], m, ms, rfl, by simp, by rw [h0, h]⟩
    | ok s =>
      rw [h0] at h
      dsimp only at h
      cases h1 : show_all_go ctx ms with
      | error e1 =>
        rw [h1] at h
        dsimp only at h
        injection h with h
        subst h
        obtain ⟨pre, m', post, hsplit, hpre, hfail⟩ := ih e1 h1
        exact ⟨m :: pre, m', post, by rw [hsplit]; rfl, by
          intro x hx
          rcases List.mem_cons.mp hx with rfl | hx
          · rw [h0]; rfl
          · exact hpre x hx, hfail⟩
      | ok rest =>
        rw [h1] at h
        dsimp only at h
        exact absurd h (by simp)

/-- C8: the all-MAC status iterates mac ids 1 through 31 inclusive; for
each MAC it reads the two templated status registers and extracts the
eight byte-wide fields (lfault, rfault, ofault, linkup from register 0
and sigok, txidle, rxidle, txgood from register 1, at bit ranges 0..=7,
8..=15, 16..=23, 24..=31); it succeeds when every MAC is readable and
otherwise fails on the first MAC whose registers cannot be read. -/
theorem c8_all_mac_status :
    (∀ ctx : Tofino, show_all_eth400g ctx
        = show_all_go ctx [1, 2, 3, 4, 5, 6, 7, 8, 9, 10, 11, 12, 13, 14, 15, 16,
            17, 18, 19, 20, 21, 22, 23, 24, 25, 26, 27, 28, 29, 30, 31])
    ∧ (∀ (ctx : Tofino) (mac v0 v1 : Nat),
        read_register ctx (eth_status0_path mac) 1 = Except.ok [v0] →
        read_register ctx (eth_status1_path mac) 1 = Except.ok [v1] →
        v0 < 2 ^ 32 → v1 < 2 ^ 32 →
        eth400g_status ctx mac = Except.ok
          ⟨v0 % 2 ^ 8, v0 / 2 ^ 8 % 2 ^ 8, v0 / 2 ^ 16 % 2 ^ 8, v0 / 2 ^ 24 % 2 ^ 8,
           v1 % 2 ^ 8, v1 / 2 ^ 8 % 2 ^ 8, v1 / 2 ^ 16 % 2 ^ 8, v1 / 2 ^ 24 % 2 ^ 8⟩)
    ∧ (∀ ctx : Tofino, (∀ m ∈ List.range' 1 31, (eth400g_status ctx m).isOk) →
        (show_all_eth400g ctx).isOk)
    ∧ (∀ (ctx : Tofino) (e : TfErr), show_all_eth400g ctx = Except.error e →
        ∃ pre m post, List.range' 1 31 = pre ++ m :: post
          ∧ (∀ m' ∈ pre, (eth400g_status ctx m').isOk)
          ∧ eth400g_status ctx m = Except.error e) := by
  refine ⟨fun ctx => rfl, ?_, fun ctx h => show_all_go_isOk ctx _ h,
    fun ctx e h => show_all_go_error ctx _ e h⟩
  intro ctx mac v0 v1 h0 h1 hv0 hv1
  rw [eth400g_status, h0]
  dsimp only
  rw [h1]
  dsimp only
  have e0 := get_bits_single_word v0 0 hv0 (by omega)
  have e8 := get_bits_single_word v0 8 hv0 (by omega)
  have e16 := get_bits_single_word v0 16 hv0 (by omega)
  have e24 := get_bits_single_word v0 24 hv0 (by omega)
  have f0 := get_bits_single_word v1 0 hv1 (by omega)
  have f8 := get_bits_single_word v1 8 hv1 (by omega)
  have f16 := get_bits_single_word v1 16 hv1 (by omega)
  have f24 := get_bits_single_word v1 24 hv1 (by omega)
  norm_num at e0 e8 e16 e24 f0 f8 f16 f24 ⊢
  rw [e0, e8, e16, e24, f0, f8, f16, f24]
  exact ⟨rfl, rfl, rfl, rfl, rfl, rfl, rfl, rfl⟩

/-- Witness for C8: against the in-tree stub register map (which always
fails) the iteration fails at some first MAC with the stub's error, and
against a readable map MAC 1's status decodes from the two register
words. -/
theorem c8_all_mac_status_witness :
    (∃ pre m post, List.range' 1 31 = pre ++ m :: post
        ∧ (∀ m' ∈ pre,
            (eth400g_status ⟨⟨fun _ => Except.error "no register map available",
              fun _ => Except.error "no register map available"⟩,
              ⟨0, fun _ => 0⟩⟩ m').isOk)
        ∧ eth400g_status ⟨⟨fun _ => Except.error "no register map available",
              fun _ => Except.error "no register map available"⟩,
              ⟨0, fun _ => 0⟩⟩ m
            = Except.error (TfErr.tree "no register map available"))
    ∧ eth400g_status ⟨⟨fun _ => Except.ok ⟨8⟩,
          fun s => if s = eth_status0_path 1 then Except.ok 0 else Except.ok 4⟩,
          ⟨64, fun i => i⟩⟩ 1
        = Except.ok
          ⟨0 % 2 ^ 8, 0 / 2 ^ 8 % 2 ^ 8, 0 / 2 ^ 16 % 2 ^ 8, 0 / 2 ^ 24 % 2 ^ 8,
           1 % 2 ^ 8, 1 / 2 ^ 8 % 2 ^ 8, 1 / 2 ^ 16 % 2 ^ 8, 1 / 2 ^ 24 % 2 ^ 8⟩ :=
  ⟨c8_all_mac_status.2.2.2 _ (TfErr.tree "no register map available") rfl,
   c8_all_mac_status.2.1 _ 1 0 1 rfl rfl (by norm_num) (by norm_num)⟩
